import Mathlib

set_option maxRecDepth 8192
set_option maxHeartbeats 1000000

/-!
Verification of the silero-api-server orchestration core.

The Python source (`silero_api_server/tts.py`) is shallowly embedded below:
text is `List Char`, the filesystem state that matters (session directories,
the sample directory, the language cache file) is passed explicitly, and the
external collaborators (the neural TTS model, the audio codec, the remote
index fetch) are abstracted as parameters, exactly as the spec scopes them
out.
-/

/-- `self.max_char_length` from `SileroTtsService.__init__`. -/
def max_char_length : Nat := 600

/-- The substitution performed by `word.replace('\n',' ')` on one character. -/
def normChar (c : Char) : Char := if c = '\n' then ' ' else c

/-- `word.replace('\n',' ')`: every newline becomes a space. -/
def replaceNL (w : List Char) : List Char := w.map normChar

/-- The loop body state of `SileroTtsService.split_text`: fold over the words
of `text.split(' ')`, accumulating the current chunk (`chunk_str`), flushing
it to the output whenever appending the next (newline-normalised,
space-suffixed) word would exceed the budget, and finally flushing a nonempty
trailing chunk. -/
def splitTextAux (maxLen : Nat) : List (List Char) → List Char → List (List Char)
  | [], chunk_str => if 0 < chunk_str.length then [chunk_str] else []
  | word :: rest, chunk_str =>
      let w := replaceNL word ++ [' ']
      if maxLen < (chunk_str ++ w).length then
        chunk_str :: splitTextAux maxLen rest w
      else
        splitTextAux maxLen rest (chunk_str ++ w)

/-- `SileroTtsService.split_text`: split `text` into chunks at word
boundaries (`text.split(' ')`), each word newline-normalised and given a
trailing space, flushing the running chunk when it would exceed `maxLen`. -/
def split_text (maxLen : Nat) (text : List Char) : List (List Char) :=
  splitTextAux maxLen (text.splitOn ' ') []

example : split_text 600 [] = [[' ']] := by decide
example : split_text 5 ['a', 'b', ' ', 'c'] = [['a', 'b', ' ', 'c', ' ']] := by decide
example : split_text 5 ['a', 'b', ' ', 'c', 'd', '\n', 'e'] =
    [['a', 'b', ' '], ['c', 'd', ' ', 'e', ' ']] := by decide
example : split_text 5 ['a', 'b', 'c', 'd', 'e'] = [[], ['a', 'b', 'c', 'd', 'e', ' ']] := by
  decide

/-- Flattening the output of the chunking loop prepends the pending chunk to
the normalised, space-suffixed words still to be processed. -/
theorem splitTextAux_flatten (maxLen : Nat) (words : List (List Char)) (chunk_str : List Char) :
    (splitTextAux maxLen words chunk_str).flatten
      = chunk_str ++ (words.map (fun w => replaceNL w ++ [' '])).flatten := by
  induction words generalizing chunk_str with
  | nil =>
      by_cases h : 0 < chunk_str.length
      · simp [splitTextAux, h]
      · have hnil : chunk_str = [] := by
          cases chunk_str with
          | nil => rfl
          | cons a l => simp at h
        simp [splitTextAux, h, hnil]
  | cons word rest ih =>
      simp only [splitTextAux]
      split
      · simp [ih, List.append_assoc]
      · simp [ih, List.append_assoc]

/-- Concatenating the normalised, space-suffixed words of `text.split(' ')`
yields the newline-normalised text followed by one trailing space. -/
theorem flatten_map_splitOn (text : List Char) :
    ((text.splitOn ' ').map (fun w => replaceNL w ++ [' '])).flatten
      = replaceNL text ++ [' '] := by
  induction text with
  | nil => decide
  | cons c rest ih =>
      rw [List.splitOn] at ih ⊢
      rw [List.splitOnP_cons]
      by_cases h : c = ' '
      · simp only [h, beq_self_eq_true, if_pos]
        simpa [replaceNL, normChar] using ih
      · have hb : (c == ' ') = false := by simpa using h
        rw [hb, if_neg (by simp)]
        cases h' : rest.splitOnP (fun x => x == ' ') with
        | nil => exact absurd h' (List.splitOnP_ne_nil _ rest)
        | cons w ws =>
            rw [h'] at ih
            simp only [List.modifyHead, List.map_cons, List.flatten_cons, replaceNL] at ih ⊢
            simp only [List.cons_append, List.append_assoc, List.singleton_append,
              List.nil_append] at ih ⊢
            simp [ih]

/-- Every chunk the loop emits is within the budget, unless it is a single
word of the input whose length already reaches the budget (such a word gets
its own chunk: the word, newline-normalised, plus the trailing space). -/
theorem splitTextAux_bound (maxLen : Nat) (W : List (List Char)) :
    ∀ (words : List (List Char)) (chunk_str : List Char),
      (∀ w ∈ words, w ∈ W) →
      (chunk_str.length ≤ maxLen ∨
        ∃ u, u ∈ W ∧ chunk_str = replaceNL u ++ [' '] ∧ maxLen ≤ u.length) →
      ∀ c ∈ splitTextAux maxLen words chunk_str,
        c.length ≤ maxLen ∨ ∃ u, u ∈ W ∧ c = replaceNL u ++ [' '] ∧ maxLen ≤ u.length := by
  intro words
  induction words with
  | nil =>
      intro chunk_str _ hinv c hc
      simp only [splitTextAux] at hc
      by_cases h : 0 < chunk_str.length
      · rw [if_pos h] at hc
        rw [List.mem_singleton.mp hc]
        exact hinv
      · rw [if_neg h] at hc
        exact absurd hc (List.not_mem_nil c)
  | cons word rest ih =>
      intro chunk_str hsub hinv c hc
      simp only [splitTextAux] at hc
      by_cases h : maxLen < (chunk_str ++ (replaceNL word ++ [' '])).length
      · rw [if_pos h] at hc
        rcases List.mem_cons.mp hc with hc | hc
        · rw [hc]; exact hinv
        · refine ih (replaceNL word ++ [' ']) (fun w hw => hsub w (List.mem_cons_of_mem _ hw))
            ?_ c hc
          by_cases hw : (replaceNL word ++ [' ']).length ≤ maxLen
          · exact Or.inl hw
          · refine Or.inr ⟨word, hsub word (List.mem_cons_self _ _), rfl, ?_⟩
            have hlen : (replaceNL word ++ [' ']).length = word.length + 1 := by
              simp [replaceNL]
            omega
      · rw [if_neg h] at hc
        refine ih (chunk_str ++ (replaceNL word ++ [' ']))
          (fun w hw => hsub w (List.mem_cons_of_mem _ hw)) (Or.inl (by omega)) c hc

/-- The chunking loop never returns the empty list unless both the pending
chunk and the word list are exhausted and empty. -/
theorem splitTextAux_ne_nil (maxLen : Nat) :
    ∀ (words : List (List Char)) (chunk_str : List Char),
      words ≠ [] ∨ chunk_str ≠ [] → splitTextAux maxLen words chunk_str ≠ [] := by
  intro words
  induction words with
  | nil =>
      intro chunk_str hne
      have h : chunk_str ≠ [] := hne.resolve_left (fun h => h rfl)
      have hl : 0 < chunk_str.length := List.length_pos.mpr h
      simp [splitTextAux, hl]
  | cons word rest ih =>
      intro chunk_str _
      simp only [splitTextAux]
      split
      · simp
      · refine ih _ (Or.inr ?_)
        exact List.append_ne_nil_of_right_ne_nil _ (by simp)

/-- Every chunk the loop emits is empty or ends with a space, provided the
pending chunk does. -/
theorem splitTextAux_trailing (maxLen : Nat) :
    ∀ (words : List (List Char)) (chunk_str : List Char),
      (chunk_str = [] ∨ chunk_str.getLast? = some ' ') →
      ∀ c ∈ splitTextAux maxLen words chunk_str, c = [] ∨ c.getLast? = some ' ' := by
  intro words
  induction words with
  | nil =>
      intro chunk_str hinv c hc
      simp only [splitTextAux] at hc
      by_cases h : 0 < chunk_str.length
      · rw [if_pos h] at hc
        rw [List.mem_singleton.mp hc]
        exact hinv
      · rw [if_neg h] at hc
        exact absurd hc (List.not_mem_nil c)
  | cons word rest ih =>
      intro chunk_str hinv c hc
      simp only [splitTextAux] at hc
      by_cases h : maxLen < (chunk_str ++ (replaceNL word ++ [' '])).length
      · rw [if_pos h] at hc
        rcases List.mem_cons.mp hc with hc | hc
        · rw [hc]; exact hinv
        · refine ih (replaceNL word ++ [' ']) (Or.inr ?_) c hc
          exact List.getLast?_concat _
      · rw [if_neg h] at hc
        refine ih (chunk_str ++ (replaceNL word ++ [' '])) (Or.inr ?_) c hc
        rw [← List.append_assoc]
        exact List.getLast?_concat _

/-- C1 (amended): for every budget `B` and text `T`, the chunks of
`split_text`, concatenated in order, equal `T` with newlines replaced by
spaces plus a single trailing space (so the word sequence is preserved
modulo whitespace normalisation); and every chunk is within the budget
except a chunk consisting of a single word of length at least `B` (not just
strictly greater), which is emitted as that word, normalised, plus a
trailing space. -/
theorem C1_split_text_amended (maxLen : Nat) (text : List Char) :
    (split_text maxLen text).flatten = replaceNL text ++ [' '] ∧
    ∀ c ∈ split_text maxLen text,
      c.length ≤ maxLen ∨
        ∃ u, u ∈ text.splitOn ' ' ∧ c = replaceNL u ++ [' '] ∧ maxLen ≤ u.length := by
  constructor
  · rw [split_text, splitTextAux_flatten]
    simpa using flatten_map_splitOn text
  · exact splitTextAux_bound maxLen (text.splitOn ' ') (text.splitOn ' ') []
      (fun _ hw => hw) (Or.inl (by simp))

/-- C1 witness: concrete instance of the amended chunking theorem at budget 5
on the text `"ab cd"`, whose first chunk is `"ab "`. -/
theorem C1_split_text_amended_witness :
    ((split_text 5 ['a', 'b', ' ', 'c', 'd']).flatten
        = replaceNL ['a', 'b', ' ', 'c', 'd'] ++ [' ']) ∧
    ((['a', 'b', ' '] : List Char).length ≤ 5 ∨
      ∃ u, u ∈ (['a', 'b', ' ', 'c', 'd'] : List Char).splitOn ' ' ∧
        (['a', 'b', ' '] : List Char) = replaceNL u ++ [' '] ∧ 5 ≤ u.length) :=
  ⟨(C1_split_text_amended 5 ['a', 'b', ' ', 'c', 'd']).1,
   (C1_split_text_amended 5 ['a', 'b', ' ', 'c', 'd']).2 ['a', 'b', ' '] (by decide)⟩

/-- C1 counterexample: at the configured budget 600, a text consisting of a
single word of length exactly 600 (not longer than the budget) still yields
an over-budget chunk of length 601, because every word is given a trailing
space before the budget check; the claim's exception only covers words
strictly longer than the budget, so the claim as stated fails here. (The
output also exhibits the empty chunk flushed before the oversized word.) -/
theorem C1_counterexample :
    (List.replicate 600 'a').splitOn ' ' = [List.replicate 600 'a'] ∧
    (List.replicate 600 'a').length = 600 ∧
    split_text 600 (List.replicate 600 'a') = [[], List.replicate 600 'a' ++ [' ']] ∧
    600 < (List.replicate 600 'a' ++ [' ']).length := by decide

/-- `split_text` never returns the empty list: `text.split(' ')` always
yields at least one word, so at least one chunk is flushed. -/
theorem split_text_ne_nil (maxLen : Nat) (text : List Char) :
    split_text maxLen text ≠ [] :=
  splitTextAux_ne_nil maxLen _ [] (Or.inl (List.splitOnP_ne_nil _ text))

/-- C10 (amended): `split_text` always returns a non-empty list, and every
returned chunk is either empty or ends with a trailing space character (an
empty chunk is flushed exactly when a word at least as long as the budget
arrives while the pending chunk is empty); for empty input text and any
positive budget it returns a single one-character whitespace chunk. -/
theorem C10_split_text_amended (maxLen : Nat) (text : List Char) :
    split_text maxLen text ≠ [] ∧
    (∀ c ∈ split_text maxLen text, c = [] ∨ c.getLast? = some ' ') ∧
    (1 ≤ maxLen → split_text maxLen [] = [[' ']]) := by
  refine ⟨?_, ?_, ?_⟩
  · exact split_text_ne_nil maxLen text
  · exact splitTextAux_trailing maxLen _ [] (Or.inl rfl)
  · intro h
    have hn : ¬ maxLen < 1 := by omega
    simp [split_text, splitTextAux, replaceNL, hn]

/-- C10 witness: concrete instances of the amended theorem — the chunking of
`"hi"` at budget 600 is non-empty, its chunk `"hi "` ends with a space, and
the empty text yields the single chunk `" "`. -/
theorem C10_split_text_amended_witness :
    split_text 600 ['h', 'i'] ≠ [] ∧
    ((['h', 'i', ' '] : List Char) = [] ∨
      (['h', 'i', ' '] : List Char).getLast? = some ' ') ∧
    split_text 600 ([] : List Char) = [[' ']] :=
  ⟨(C10_split_text_amended 600 ['h', 'i']).1,
   (C10_split_text_amended 600 ['h', 'i']).2.1 ['h', 'i', ' '] (by decide),
   (C10_split_text_amended 600 []).2.2 (by decide)⟩

/-- C10 counterexample: at the configured budget 600, a 600-character single
word makes `split_text` flush an empty chunk, which does not end with a
trailing space; so "every returned chunk ends with a trailing space
character" fails as stated. -/
theorem C10_counterexample :
    ([] : List Char) ∈ split_text 600 (List.replicate 600 'a') ∧
    ¬ ([] : List Char).getLast? = some ' ' := by decide

/-- Decidable equality for `Except`, so the embedded fallible operations can
be evaluated on concrete inputs. -/
instance {ε α : Type} [DecidableEq ε] [DecidableEq α] : DecidableEq (Except ε α) := fun x y =>
  match x, y with
  | Except.ok a, Except.ok b =>
      if h : a = b then isTrue (congrArg Except.ok h)
      else isFalse (fun hh => h (Except.ok.inj hh))
  | Except.error a, Except.error b =>
      if h : a = b then isTrue (congrArg Except.error h)
      else isFalse (fun hh => h (Except.error.inj hh))
  | Except.ok _, Except.error _ => isFalse (fun hh => Except.noConfusion hh)
  | Except.error _, Except.ok _ => isFalse (fun hh => Except.noConfusion hh)

/-- The filesystem-visible state of `SessionManager`: the base directory path
and the set of session ids whose directory exists under it. -/
structure SessionManager where
  sessions_path : String
  dirs : List String
deriving DecidableEq, Repr

/-- `Path.mkdir()` without `exist_ok`: raises `FileExistsError` when the
directory already exists, otherwise records it. -/
def mkdir (dirs : List String) (d : String) : Except String (List String) :=
  if d ∈ dirs then Except.error "FileExistsError" else Except.ok (d :: dirs)

/-- `SessionManager.init_session_path`: build the session path, create the
directory only when it does not exist yet, and return the path. -/
def init_session_path (m : SessionManager) (session_id : String) :
    Except String (String × SessionManager) :=
  let session_path := m.sessions_path ++ "/" ++ session_id
  if session_id ∈ m.dirs then Except.ok (session_path, m)
  else
    match mkdir m.dirs session_id with
    | Except.ok ds => Except.ok (session_path, ⟨m.sessions_path, ds⟩)
    | Except.error e => Except.error e

/-- `SessionManager.create_session`: with an explicit id, return it unchanged
(the directory-creation code is inside the `session_id is None` branch and
does not run); with no id, derive the id from the current date (`today`
stands for `time.strftime("%Y%m%d")`) and create its directory only when it
does not exist yet. -/
def create_session (m : SessionManager) (session_id : Option String) (today : String) :
    Except String (String × SessionManager) :=
  match session_id with
  | some s => Except.ok (s, m)
  | none =>
      let new_session_id := today
      if new_session_id ∈ m.dirs then Except.ok (new_session_id, m)
      else
        match mkdir m.dirs new_session_id with
        | Except.ok ds => Except.ok (new_session_id, ⟨m.sessions_path, ds⟩)
        | Except.error e => Except.error e

/-- The message of the exception raised by `SessionManager.get_session_path`
when the session directory does not exist. -/
def sessionNotInitializedMsg : String :=
  "Session not initialized. Call POST /tts/session first"

/-- `SessionManager.get_session_path`: return the session directory path if
it exists, otherwise raise the session-not-initialized exception. -/
def get_session_path (m : SessionManager) (session_id : String) : Except String String :=
  let session_path := m.sessions_path ++ "/" ++ session_id
  if session_id ∈ m.dirs then Except.ok session_path
  else Except.error sessionNotInitializedMsg

/-- `get_session_path` on an existing session directory returns its path. -/
theorem get_session_path_of_mem (m : SessionManager) (session_id : String)
    (h : session_id ∈ m.dirs) :
    get_session_path m session_id = Except.ok (m.sessions_path ++ "/" ++ session_id) := by
  simp [get_session_path, h]

/-- `get_session_path` on a missing session directory raises the
session-not-initialized exception. -/
theorem get_session_path_of_not_mem (m : SessionManager) (session_id : String)
    (h : session_id ∉ m.dirs) :
    get_session_path m session_id = Except.error sessionNotInitializedMsg := by
  simp [get_session_path, h]

/-- C6: `get_session_path` fails with the session-not-initialized condition
exactly when the session directory does not exist, and returns the session
directory path when it does. -/
theorem C6_get_session_path (m : SessionManager) (session_id : String) :
    (session_id ∉ m.dirs →
      get_session_path m session_id = Except.error sessionNotInitializedMsg) ∧
    (session_id ∈ m.dirs →
      get_session_path m session_id = Except.ok (m.sessions_path ++ "/" ++ session_id)) :=
  ⟨get_session_path_of_not_mem m session_id, get_session_path_of_mem m session_id⟩

/-- C6 witness: on a manager whose only existing session directory is
`"s1"`, `get_session_path` succeeds on `"s1"` and fails on `"s2"`. -/
theorem C6_get_session_path_witness :
    get_session_path ⟨"sessions", ["s1"]⟩ "s1" = Except.ok "sessions/s1" ∧
    get_session_path ⟨"sessions", ["s1"]⟩ "s2" = Except.error sessionNotInitializedMsg :=
  ⟨(C6_get_session_path ⟨"sessions", ["s1"]⟩ "s1").2 (by decide),
   (C6_get_session_path ⟨"sessions", ["s1"]⟩ "s2").1 (by decide)⟩

/-- C4 (amended): a call to `create_session` with no id derives the id from
the current date, ensures that directory exists (without error whether or not
it already existed) and returns the id; a call with an explicitly supplied id
returns that id but leaves the state untouched — it does not create the
directory, because the directory-creation code sits inside the no-id
branch. -/
theorem C4_create_session_amended (m : SessionManager) (today : String) :
    (∃ m1, create_session m none today = Except.ok (today, m1) ∧
      today ∈ m1.dirs ∧ m1.sessions_path = m.sessions_path) ∧
    (∀ s, create_session m (some s) today = Except.ok (s, m)) := by
  constructor
  · by_cases h : today ∈ m.dirs
    · exact ⟨m, by simp [create_session, h], h, rfl⟩
    · refine ⟨⟨m.sessions_path, today :: m.dirs⟩, ?_, by simp, rfl⟩
      simp [create_session, h, mkdir]
  · intro s
    rfl

/-- C4 witness: with no id and an empty sessions directory, the date-derived
session directory `"20261012"` exists afterwards; with the explicit id
`"myses"`, the call returns the id and the state is unchanged. -/
theorem C4_create_session_amended_witness :
    (∃ m1, create_session ⟨"sessions", []⟩ none "20261012" = Except.ok ("20261012", m1) ∧
      "20261012" ∈ m1.dirs ∧ m1.sessions_path = "sessions") ∧
    (∀ s, create_session ⟨"sessions", []⟩ (some s) "20261012" = Except.ok (s, ⟨"sessions", []⟩)) :=
  C4_create_session_amended ⟨"sessions", []⟩ "20261012"

/-- C4 counterexample: starting from a manager with no session directories,
`create_session` with the explicit id `"myses"` succeeds and returns the id,
yet the session directory still does not exist — `get_session_path` on the
very id just "created" fails; so "a successful call to create_session(id)
ensures the corresponding directory ... exists" is false for explicitly
supplied ids. -/
theorem C4_counterexample :
    create_session ⟨"sessions", []⟩ (some "myses") "20261012"
      = Except.ok ("myses", ⟨"sessions", []⟩) ∧
    "myses" ∉ (⟨"sessions", []⟩ : SessionManager).dirs ∧
    get_session_path ⟨"sessions", []⟩ "myses" = Except.error sessionNotInitializedMsg := by
  decide

/-- C8: calling `create_session` with no id twice on the same calendar day is
idempotent — both calls succeed (the second does not error even though the
directory already exists, thanks to the existence guard before `mkdir`), both
return the same date-derived id, and the state after the second call is the
state after the first. -/
theorem C8_create_session_idempotent (m : SessionManager) (today : String) :
    ∃ m1, create_session m none today = Except.ok (today, m1) ∧
      create_session m1 none today = Except.ok (today, m1) := by
  by_cases h : today ∈ m.dirs
  · exact ⟨m, by simp [create_session, h], by simp [create_session, h]⟩
  · refine ⟨⟨m.sessions_path, today :: m.dirs⟩, ?_, ?_⟩
    · simp [create_session, h, mkdir]
    · simp [create_session]

/-- One element of a `pydub` audio track as `generate` builds it: a silent
span of the given number of milliseconds, or a clip decoded from a
synthesized file (`α` is the abstract audio produced by the external
model). -/
inductive AudioElem (α : Type) where
  | silence : Nat → AudioElem α
  | clip : α → AudioElem α
deriving DecidableEq, Repr

/-- The observable outcome of `SileroTtsService.generate`: the path the
function returns, the path of the file it places in the session directory,
and the audio content of that file. -/
structure GenResult (α : Type) where
  returned_path : String
  session_file : String
  session_audio : List (AudioElem α)
deriving DecidableEq, Repr

/-- The chunk loop of `generate`'s long-text branch: starting from
`AudioSegment.empty()`, append a 500 ms silence and then the synthesized
clip for each chunk, in chunk order. -/
def generate_combined {α : Type} (synth : List Char → α) (chunks : List (List Char)) :
    List (AudioElem α) :=
  chunks.foldl
    (fun combined_wav chunk => combined_wav ++ [AudioElem.silence 500, AudioElem.clip (synth chunk)])
    []

/-- `SileroTtsService.generate`: resolve the session directory (failing when
the session is unknown); for text longer than the budget, synthesize each
chunk of `split_text`, stitch the clips with 500 ms pauses, and export the
combined audio under a deterministic name in the session directory,
returning that path; otherwise synthesize once and copy the model's output
file into the session directory under a deterministic name, returning the
model's output path. `synth` abstracts `self.model.save_wav` (it yields the
model's output path and the audio content) and `now` stands for
`int(time.time())`. -/
def generate {α : Type} (maxLen : Nat) (synth : List Char → String × α)
    (m : SessionManager) (speaker session : String) (text : List Char) (now : Nat) :
    Except String (GenResult α) :=
  match get_session_path m session with
  | Except.error e => Except.error e
  | Except.ok session_path =>
      if maxLen < text.length then
        let text_chunks := split_text maxLen text
        let combined_wav := generate_combined (fun chunk => (synth chunk).2) text_chunks
        let final_audio_name :=
          "tts_" ++ speaker ++ "_" ++ session ++ "_" ++ toString now ++ "_combined.wav"
        let audio_path := session_path ++ "/" ++ final_audio_name
        Except.ok ⟨audio_path, audio_path, combined_wav⟩
      else
        let model_out := synth text
        let dst := session_path ++ "/"
          ++ ("tts_" ++ speaker ++ "_" ++ session ++ "_" ++ toString now ++ ".wav")
        Except.ok ⟨model_out.1, dst, [AudioElem.clip model_out.2]⟩

/-- The chunk loop is a flatten of per-chunk silence-clip pairs. -/
theorem generate_combined_eq_flatten {α : Type} (synth : List Char → α)
    (chunks : List (List Char)) :
    generate_combined synth chunks
      = (chunks.map (fun chunk => [AudioElem.silence 500, AudioElem.clip (synth chunk)])).flatten := by
  suffices h : ∀ (l : List (List Char)) (init : List (AudioElem α)),
      l.foldl (fun acc chunk => acc ++ [AudioElem.silence 500, AudioElem.clip (synth chunk)]) init
        = init ++ (l.map (fun chunk => [AudioElem.silence 500, AudioElem.clip (synth chunk)])).flatten by
    simpa using h chunks []
  intro l
  induction l with
  | nil => intro init; simp
  | cons c rest ih => intro init; simp [ih, List.append_assoc]

/-- On a non-empty chunk list, the stitched audio is a 500 ms silence
followed by the clips interspersed with 500 ms silences: silence before the
first clip and between consecutive clips, none after the last. -/
theorem generate_combined_eq_intersperse {α : Type} (synth : List Char → α) :
    ∀ (chunks : List (List Char)), chunks ≠ [] →
      generate_combined synth chunks
        = AudioElem.silence 500
            :: List.intersperse (AudioElem.silence 500) (chunks.map (fun c => AudioElem.clip (synth c)))
  | [], h => absurd rfl h
  | [c], _ => by simp [generate_combined_eq_flatten]
  | c1 :: c2 :: rest, _ => by
      have ih := generate_combined_eq_intersperse synth (c2 :: rest) (by simp)
      rw [generate_combined_eq_flatten] at ih ⊢
      simp only [List.map_cons, List.flatten_cons, List.intersperse_cons_cons] at ih ⊢
      rw [ih]
      simp

/-- C2 (amended): for long text (over the budget) on an initialized session,
`generate` exports exactly one combined file in the session directory under
the deterministic speaker-session-timestamp name and returns its path, and
the combined audio is the per-chunk synthesized clips in original chunk
order with a fixed 500 ms silence before every clip — before the first chunk
and between consecutive chunks, none after the last (the claim's "no silence
before the first chunk" is what fails in the code). -/
theorem C2_generate_long_amended {α : Type} (maxLen : Nat) (synth : List Char → String × α)
    (m : SessionManager) (speaker session : String) (text : List Char) (now : Nat)
    (hs : session ∈ m.dirs) (hlong : maxLen < text.length) :
    generate maxLen synth m speaker session text now
      = Except.ok
          ⟨m.sessions_path ++ "/" ++ session ++ "/"
              ++ ("tts_" ++ speaker ++ "_" ++ session ++ "_" ++ toString now ++ "_combined.wav"),
            m.sessions_path ++ "/" ++ session ++ "/"
              ++ ("tts_" ++ speaker ++ "_" ++ session ++ "_" ++ toString now ++ "_combined.wav"),
            AudioElem.silence 500
              :: List.intersperse (AudioElem.silence 500)
                  ((split_text maxLen text).map (fun c => AudioElem.clip (synth c).2))⟩ := by
  have hget : get_session_path m session = Except.ok (m.sessions_path ++ "/" ++ session) :=
    get_session_path_of_mem m session hs
  have hne : split_text maxLen text ≠ [] := split_text_ne_nil maxLen text
  simp only [generate, hget]
  rw [if_pos hlong]
  rw [generate_combined_eq_intersperse _ _ hne]

/-- A concrete stand-in for the external model used on concrete inputs: the
model output file is always `model_out.wav` and the audio content is the
text that was synthesized. -/
def synthId : List Char → String × List Char := fun chunk => ("model_out.wav", chunk)

/-- A session manager whose only initialized session is `"s"`. -/
def smS : SessionManager := ⟨"sessions", ["s"]⟩

/-- A 701-character text: 350 `'a'`s, a space, 350 `'b'`s; it exceeds the
600-character budget and splits into the two chunks `'a'*350 + ' '` and
`'b'*350 + ' '`. -/
def longText : List Char := List.replicate 350 'a' ++ ' ' :: List.replicate 350 'b'

/-- C2 witness: the amended long-text theorem at the configured budget 600 on
the concrete 701-character two-word text, with an initialized session. -/
theorem C2_generate_long_amended_witness :
    generate 600 synthId smS "sp" "s" longText 0
      = Except.ok
          ⟨smS.sessions_path ++ "/" ++ "s" ++ "/"
              ++ ("tts_" ++ "sp" ++ "_" ++ "s" ++ "_" ++ toString 0 ++ "_combined.wav"),
            smS.sessions_path ++ "/" ++ "s" ++ "/"
              ++ ("tts_" ++ "sp" ++ "_" ++ "s" ++ "_" ++ toString 0 ++ "_combined.wav"),
            AudioElem.silence 500
              :: List.intersperse (AudioElem.silence 500)
                  ((split_text 600 longText).map (fun c => AudioElem.clip (synthId c).2))⟩ :=
  C2_generate_long_amended 600 synthId smS "sp" "s" longText 0 (by decide) (by decide)

/-- C2 counterexample: on the concrete 701-character two-word text the
combined audio produced by `generate` carries a 500 ms silence *before the
first* clip — it is not the clips with silence only between consecutive
chunks, so the claim as stated fails. -/
theorem C2_counterexample :
    generate 600 synthId smS "sp" "s" longText 0
      = Except.ok
          ⟨"sessions/s/tts_sp_s_0_combined.wav", "sessions/s/tts_sp_s_0_combined.wav",
            [AudioElem.silence 500, AudioElem.clip (List.replicate 350 'a' ++ [' ']),
             AudioElem.silence 500, AudioElem.clip (List.replicate 350 'b' ++ [' '])]⟩ ∧
    [AudioElem.silence 500, AudioElem.clip (List.replicate 350 'a' ++ [' ']),
     AudioElem.silence 500, AudioElem.clip (List.replicate 350 'b' ++ [' '])]
      ≠ List.intersperse (AudioElem.silence 500)
          [AudioElem.clip (List.replicate 350 'a' ++ [' ']),
           AudioElem.clip (List.replicate 350 'b' ++ [' '])] := by decide

/-- C3 (amended): for text within the budget on an initialized session,
`generate` copies the model output into the session directory under the
deterministic speaker-session-timestamp name, but the returned value is the
path of the model's original output file, not the session-directory copy
(which is what fails in the claim as stated). -/
theorem C3_generate_short_amended {α : Type} (maxLen : Nat) (synth : List Char → String × α)
    (m : SessionManager) (speaker session : String) (text : List Char) (now : Nat)
    (hs : session ∈ m.dirs) (hshort : text.length ≤ maxLen) :
    generate maxLen synth m speaker session text now
      = Except.ok
          ⟨(synth text).1,
            m.sessions_path ++ "/" ++ session ++ "/"
              ++ ("tts_" ++ speaker ++ "_" ++ session ++ "_" ++ toString now ++ ".wav"),
            [AudioElem.clip (synth text).2]⟩ := by
  have hget : get_session_path m session = Except.ok (m.sessions_path ++ "/" ++ session) :=
    get_session_path_of_mem m session hs
  simp only [generate, hget]
  rw [if_neg (by omega)]

/-- C3 witness: the amended short-text theorem on the concrete two-character
text `"hi"` with an initialized session. -/
theorem C3_generate_short_amended_witness :
    generate 600 synthId smS "sp" "s" ['h', 'i'] 7
      = Except.ok
          ⟨(synthId ['h', 'i']).1,
            smS.sessions_path ++ "/" ++ "s" ++ "/"
              ++ ("tts_" ++ "sp" ++ "_" ++ "s" ++ "_" ++ toString 7 ++ ".wav"),
            [AudioElem.clip (synthId ['h', 'i']).2]⟩ :=
  C3_generate_short_amended 600 synthId smS "sp" "s" ['h', 'i'] 7 (by decide) (by decide)

/-- C3 counterexample: for the short text `"hi"` the produced artifact in the
session directory is `sessions/s/tts_sp_s_7.wav`, yet `generate` returns
`model_out.wav` — the model's original output path, not the file placed in
the session directory; so "the returned value is the path to the produced
artifact (the file placed in the session directory)" fails as stated. -/
theorem C3_counterexample :
    generate 600 synthId smS "sp" "s" ['h', 'i'] 7
      = Except.ok ⟨"model_out.wav", "sessions/s/tts_sp_s_7.wav", [AudioElem.clip ['h', 'i']]⟩ ∧
    "model_out.wav" ≠ "sessions/s/tts_sp_s_7.wav" := by decide

/-- The deletion loop of `generate_samples`: `os.remove` every entry of
`sample_path.iterdir()`, i.e. erase each file of the directory listing from
the directory. -/
def remove_all_samples (sample_dir : List String) : List String :=
  sample_dir.foldl (fun d file => d.erase file) sample_dir

/-- On a directory listing without duplicate names (as a filesystem
guarantees), removing every listed file empties the directory. -/
theorem remove_all_samples_eq_nil :
    ∀ (sample_dir : List String), sample_dir.Nodup → remove_all_samples sample_dir = [] := by
  intro sample_dir
  induction sample_dir with
  | nil => intro _; rfl
  | cons f rest ih =>
      intro h
      have hf : f ∉ rest := (List.nodup_cons.mp h).1
      have hrest : rest.Nodup := (List.nodup_cons.mp h).2
      have herase : (f :: rest).erase f = rest := by
        simp [List.erase_cons_head]
      simpa [remove_all_samples, herase] using ih hrest

/-- `SileroTtsService.generate_samples`: delete every file in the sample
directory, then for each speaker of the model write `{speaker}.wav` unless a
file of that name already exists (files written earlier in the same loop
count). The result is the final listing of the sample directory. -/
def generate_samples (speakers : List String) (sample_dir : List String) : List String :=
  speakers.foldl
    (fun files speaker =>
      let sample_name := speaker ++ ".wav"
      if sample_name ∈ files then files else files ++ [sample_name])
    (remove_all_samples sample_dir)

/-- Membership in the speaker-loop fold: a file is present afterwards iff it
was present before or is `{speaker}.wav` for one of the processed
speakers. -/
theorem generate_samples_fold_mem (f : String) :
    ∀ (speakers : List String) (init : List String),
      (f ∈ speakers.foldl
          (fun files speaker =>
            let sample_name := speaker ++ ".wav"
            if sample_name ∈ files then files else files ++ [sample_name]) init)
        ↔ (f ∈ init ∨ ∃ s ∈ speakers, f = s ++ ".wav") := by
  intro speakers
  induction speakers with
  | nil => intro init; simp
  | cons sp rest ih =>
      intro init
      simp only [List.foldl_cons]
      by_cases h : sp ++ ".wav" ∈ init
      · rw [if_pos h]
        rw [ih init]
        constructor
        · rintro (hf | hf)
          · exact Or.inl hf
          · exact Or.inr (by rcases hf with ⟨s, hs, hfs⟩; exact ⟨s, List.mem_cons_of_mem _ hs, hfs⟩)
        · rintro (hf | ⟨s, hs, hfs⟩)
          · exact Or.inl hf
          · rcases List.mem_cons.mp hs with hs | hs
            · subst hs; subst hfs; exact Or.inl h
            · exact Or.inr ⟨s, hs, hfs⟩
      · rw [if_neg h]
        rw [ih (init ++ [sp ++ ".wav"])]
        constructor
        · rintro (hf | hf)
          · rcases List.mem_append.mp hf with hf | hf
            · exact Or.inl hf
            · refine Or.inr ⟨sp, List.mem_cons_self _ _, ?_⟩
              simpa using hf
          · exact Or.inr (by rcases hf with ⟨s, hs, hfs⟩; exact ⟨s, List.mem_cons_of_mem _ hs, hfs⟩)
        · rintro (hf | ⟨s, hs, hfs⟩)
          · exact Or.inl (List.mem_append.mpr (Or.inl hf))
          · rcases List.mem_cons.mp hs with hs | hs
            · subst hs; subst hfs
              exact Or.inl (List.mem_append.mpr (Or.inr (by simp)))
            · exact Or.inr ⟨s, hs, hfs⟩

/-- C5: on any sample directory without duplicate file names, after
`generate_samples` the directory contains exactly the files `{speaker}.wav`
for the model's speakers — every prior file is gone (the result does not
depend on the prior contents at all), and nothing else is present. -/
theorem C5_generate_samples (speakers : List String) (sample_dir : List String)
    (hnodup : sample_dir.Nodup) :
    ∀ f, f ∈ generate_samples speakers sample_dir ↔ ∃ s ∈ speakers, f = s ++ ".wav" := by
  intro f
  rw [generate_samples, remove_all_samples_eq_nil sample_dir hnodup,
    generate_samples_fold_mem]
  simp

/-- C5 witness: on the populated sample directory `[old.wav, junk.txt]` with
speakers `en_0` and `en_1`, the regenerated directory contains `en_0.wav`
and no longer contains the prior file `old.wav`. -/
theorem C5_generate_samples_witness :
    "en_0.wav" ∈ generate_samples ["en_0", "en_1"] ["old.wav", "junk.txt"] ∧
    "old.wav" ∉ generate_samples ["en_0", "en_1"] ["old.wav", "junk.txt"] := by
  constructor
  · exact (C5_generate_samples ["en_0", "en_1"] ["old.wav", "junk.txt"] (by decide)
      "en_0.wav").mpr ⟨"en_0", by decide, rfl⟩
  · intro hmem
    rcases (C5_generate_samples ["en_0", "en_1"] ["old.wav", "junk.txt"] (by decide)
      "old.wav").mp hmem with ⟨s, hs, hfs⟩
    rcases List.mem_cons.mp hs with hs | hs
    · subst hs; exact absurd hfs (by decide)
    · rcases List.mem_cons.mp hs with hs | hs
      · subst hs; exact absurd hfs (by decide)
      · exact absurd hs (List.not_mem_nil s)

/-- The result of a successful `load_model`: which model file was loaded and
whether the model file had to be downloaded first. -/
structure LoadResult where
  model_file : String
  downloaded : Bool
deriving DecidableEq, Repr

/-- `SileroTtsService.load_model`: fail with the invalid-language error when
the requested id is not a key of the registry (`self.langs`, an association
of model-file names to URLs); otherwise download the model file when no
local file of that name exists, and load it. `local_files` is the set of
files present in the working directory. -/
def load_model (langs : List (String × String)) (local_files : List String)
    (lang_model : String) : Except String LoadResult :=
  match langs.lookup lang_model with
  | none => Except.error (lang_model ++ " not in " ++ toString (langs.map Prod.snd))
  | some _ => Except.ok ⟨lang_model, !(local_files.contains lang_model)⟩

/-- C7: `load_model` fails with the invalid-language error exactly for ids
absent from the registry mapping; for an id present in the registry it
succeeds, loading that model file after downloading it precisely when no
local copy exists. -/
theorem C7_load_model (langs : List (String × String)) (local_files : List String)
    (lang_model : String) :
    (langs.lookup lang_model = none →
      load_model langs local_files lang_model
        = Except.error (lang_model ++ " not in " ++ toString (langs.map Prod.snd))) ∧
    (∀ url, langs.lookup lang_model = some url →
      load_model langs local_files lang_model
        = Except.ok ⟨lang_model, !(local_files.contains lang_model)⟩) := by
  constructor
  · intro h
    simp [load_model, h]
  · intro url h
    simp [load_model, h]

/-- C7 witness: with a registry containing only `v3_en.pt`, loading
`v3_en.pt` succeeds (downloading, since no local file exists), and loading
`v3_de.pt` fails with the invalid-language error. -/
theorem C7_load_model_witness :
    load_model [("v3_en.pt", "https://example/v3_en.pt")] [] "v3_en.pt"
      = Except.ok ⟨"v3_en.pt", true⟩ ∧
    load_model [("v3_en.pt", "https://example/v3_en.pt")] [] "v3_de.pt"
      = Except.error
          ("v3_de.pt" ++ " not in "
            ++ toString ([("v3_en.pt", "https://example/v3_en.pt")].map Prod.snd)) :=
  ⟨(C7_load_model [("v3_en.pt", "https://example/v3_en.pt")] [] "v3_en.pt").2
      "https://example/v3_en.pt" (by decide),
   (C7_load_model [("v3_en.pt", "https://example/v3_en.pt")] [] "v3_de.pt").1 (by decide)⟩

/-- The opening brace character of a JSON object. -/
def lbraceChar : Char := Char.ofNat 123

/-- The closing brace character of a JSON object. -/
def rbraceChar : Char := Char.ofNat 125

/-- JSON string escaping of one character: quote and backslash get a
backslash prefix. -/
def escapeChar (c : Char) : List Char :=
  if c = '"' ∨ c = '\\' then ['\\', c] else [c]

/-- JSON encoding of one string: opening quote, escaped characters, closing
quote. -/
def encodeString (s : List Char) : List Char :=
  '"' :: ((s.map escapeChar).flatten ++ ['"'])

/-- JSON encoding of one key-value pair. -/
def encodePair (p : List Char × List Char) : List Char :=
  encodeString p.1 ++ (':' :: encodeString p.2)

/-- `json.dump` restricted to the shape the language registry has: a flat
JSON object whose keys and values are strings (model-file name to URL). -/
def jsonEncode (m : List (List Char × List Char)) : List Char :=
  lbraceChar :: (List.intercalate [','] (m.map encodePair) ++ [rbraceChar])

/-- Parse the body of a JSON string after the opening quote, undoing the
escaping; yields the decoded string and the input after the closing
quote. -/
def parseStringBody : List Char → Option (List Char × List Char)
  | [] => none
  | c :: rest =>
      if c = '"' then some ([], rest)
      else if c = '\\' then
        match rest with
        | [] => none
        | d :: rest2 =>
            match parseStringBody rest2 with
            | some (s, r) => some (d :: s, r)
            | none => none
      else
        match parseStringBody rest with
        | some (s, r) => some (c :: s, r)
        | none => none

/-- Parse a JSON string literal. -/
def parseString : List Char → Option (List Char × List Char)
  | [] => none
  | c :: rest => if c = '"' then parseStringBody rest else none

/-- Parse one `"key":"value"` pair. -/
def parsePair (l : List Char) : Option ((List Char × List Char) × List Char) :=
  match parseString l with
  | none => none
  | some (k, r1) =>
      match r1 with
      | [] => none
      | c :: r2 =>
          if c = ':' then
            match parseString r2 with
            | none => none
            | some (v, r3) => some ((k, v), r3)
          else none

/-- Parse a non-empty comma-separated sequence of pairs terminated by the
closing brace (consuming it); the explicit fuel bounds the recursion. -/
def parsePairs : Nat → List Char → Option (List (List Char × List Char) × List Char)
  | 0, _ => none
  | fuel + 1, l =>
      match parsePair l with
      | none => none
      | some (p, r) =>
          match r with
          | [] => none
          | c :: r2 =>
              if c = ',' then
                match parsePairs fuel r2 with
                | none => none
                | some (ps, r3) => some (p :: ps, r3)
              else if c = rbraceChar then some ([p], r2)
              else none

/-- `json.load` restricted to flat string-to-string objects. -/
def jsonDecode (l : List Char) : Option (List (List Char × List Char)) :=
  match l with
  | [] => none
  | c :: rest =>
      if c = lbraceChar then
        if rest = [rbraceChar] then some []
        else
          match parsePairs rest.length rest with
          | some (m, []) => some m
          | _ => none
      else none

example : jsonDecode (jsonEncode [(['a'], ['u', '"', 'v']), (['b', '\\'], [])])
    = some [(['a'], ['u', '"', 'v']), (['b', '\\'], [])] := by decide

/-- A closing quote right away decodes the empty string. -/
theorem parseStringBody_cons_quote (rest : List Char) :
    parseStringBody ('"' :: rest) = some ([], rest) := by
  cases rest <;> rfl

/-- A backslash makes the following character be taken verbatim. -/
theorem parseStringBody_cons_escape (d : Char) (tail : List Char) :
    parseStringBody ('\\' :: d :: tail)
      = match parseStringBody tail with
        | some (s, r) => some (d :: s, r)
        | none => none := by
  have h1 : ('\\' : Char) ≠ '"' := by decide
  simp [parseStringBody, h1]

/-- Any other character is taken verbatim. -/
theorem parseStringBody_cons_plain (c : Char) (tail : List Char)
    (h1 : c ≠ '"') (h2 : c ≠ '\\') :
    parseStringBody (c :: tail)
      = match parseStringBody tail with
        | some (s, r) => some (c :: s, r)
        | none => none := by
  cases tail with
  | nil => simp [parseStringBody, h1, h2]
  | cons x xs => simp [parseStringBody, h1, h2]

/-- Decoding an escaped string body followed by the closing quote recovers
the string and the remaining input. -/
theorem parseStringBody_encode (s rest : List Char) :
    parseStringBody ((s.map escapeChar).flatten ++ ('"' :: rest)) = some (s, rest) := by
  induction s with
  | nil => simp [parseStringBody_cons_quote]
  | cons c s' ih =>
      by_cases h : c = '"' ∨ c = '\\'
      · have he : escapeChar c = ['\\', c] := by
          unfold escapeChar
          rw [if_pos h]
        simp only [List.map_cons, List.flatten_cons, he, List.cons_append, List.nil_append,
          List.append_assoc]
        rw [parseStringBody_cons_escape, ih]
      · push_neg at h
        have he : escapeChar c = [c] := by
          unfold escapeChar
          rw [if_neg (by tauto)]
        simp only [List.map_cons, List.flatten_cons, he, List.cons_append, List.nil_append,
          List.append_assoc]
        rw [parseStringBody_cons_plain c _ h.1 h.2, ih]

/-- Decoding an encoded string literal recovers the string. -/
theorem parseString_encode (s rest : List Char) :
    parseString (encodeString s ++ rest) = some (s, rest) := by
  have hshape : encodeString s ++ rest = '"' :: ((s.map escapeChar).flatten ++ ('"' :: rest)) := by
    simp [encodeString, List.append_assoc]
  rw [hshape]
  simp [parseString, parseStringBody_encode]

/-- Decoding an encoded pair recovers the pair. -/
theorem parsePair_encode (p : List Char × List Char) (rest : List Char) :
    parsePair (encodePair p ++ rest) = some (p, rest) := by
  have hshape : encodePair p ++ rest
      = encodeString p.1 ++ (':' :: (encodeString p.2 ++ rest)) := by
    simp [encodePair, List.append_assoc]
  rw [hshape, parsePair, parseString_encode]
  simp [parseString_encode]

/-- `intercalate` over a single list is that list. -/
theorem intercalate_singleton (sep x : List Char) : List.intercalate sep [x] = x := by
  simp [List.intercalate]

/-- `intercalate` over at least two lists peels off the head and one
separator. -/
theorem intercalate_cons2 (sep x y : List Char) (l : List (List Char)) :
    List.intercalate sep (x :: y :: l) = x ++ sep ++ List.intercalate sep (y :: l) := by
  simp [List.intercalate, List.append_assoc]

/-- Decoding the encoded comma-separated pair list followed by the closing
brace recovers the pair list, given enough fuel. -/
theorem parsePairs_encode :
    ∀ (m : List (List Char × List Char)) (fuel : Nat), m ≠ [] → m.length ≤ fuel →
      parsePairs fuel (List.intercalate [','] (m.map encodePair) ++ [rbraceChar])
        = some (m, []) := by
  intro m
  induction m with
  | nil => intro fuel h _; exact absurd rfl h
  | cons p m' ih =>
      intro fuel _ hlen
      cases fuel with
      | zero => simp at hlen
      | succ f =>
          cases m' with
          | nil =>
              rw [List.map_cons, List.map_nil, intercalate_singleton]
              simp only [parsePairs]
              rw [parsePair_encode p [rbraceChar]]
              have h1 : rbraceChar ≠ ',' := by decide
              simp [h1]
          | cons q m'' =>
              rw [List.map_cons, List.map_cons, intercalate_cons2]
              have hshape :
                  (encodePair p ++ [','] ++ List.intercalate [','] (encodePair q :: m''.map encodePair))
                      ++ [rbraceChar]
                    = encodePair p
                        ++ (',' :: (List.intercalate [','] (encodePair q :: m''.map encodePair)
                              ++ [rbraceChar])) := by
                simp [List.append_assoc]
              rw [hshape]
              simp only [parsePairs]
              rw [parsePair_encode]
              have hrec := ih f (by simp) (by simp at hlen ⊢; omega)
              rw [List.map_cons] at hrec
              simp [hrec]

/-- An encoded pair starts with a quote. -/
theorem encodePair_head (p : List Char × List Char) :
    ∃ t, encodePair p = '"' :: t :=
  ⟨((p.1.map escapeChar).flatten ++ ['"']) ++ (':' :: encodeString p.2),
    by simp [encodePair, encodeString, List.append_assoc]⟩

/-- The encoded pair sequence of a non-empty mapping starts with a quote. -/
theorem intercalate_encodePair_head (p : List Char × List Char)
    (l : List (List Char × List Char)) :
    ∃ t, List.intercalate [','] ((p :: l).map encodePair) = '"' :: t := by
  obtain ⟨u, hu⟩ := encodePair_head p
  cases l with
  | nil => exact ⟨u, by simp [intercalate_singleton, hu]⟩
  | cons q l' =>
      refine ⟨u ++ (',' :: List.intercalate [','] ((q :: l').map encodePair)), ?_⟩
      rw [List.map_cons, List.map_cons, intercalate_cons2, hu]
      simp [List.append_assoc]

/-- The encoded pair sequence is at least as long as the mapping, so the
input length suffices as parsing fuel. -/
theorem length_le_intercalate_encodePair (m : List (List Char × List Char)) :
    m.length ≤ (List.intercalate [','] (m.map encodePair)).length := by
  induction m with
  | nil => simp
  | cons p m' ih =>
      obtain ⟨u, hu⟩ := encodePair_head p
      cases m' with
      | nil =>
          rw [List.map_cons, List.map_nil, intercalate_singleton, hu]
          simp
      | cons q m'' =>
          rw [List.map_cons, List.map_cons, intercalate_cons2, hu]
          rw [List.map_cons] at ih
          simp only [List.length_cons, List.length_append] at ih ⊢
          omega

/-- `json.load` is a left inverse of `json.dump` on flat string-to-string
objects: decoding the encoded registry recovers it exactly. -/
theorem jsonDecode_encode (m : List (List Char × List Char)) :
    jsonDecode (jsonEncode m) = some m := by
  cases m with
  | nil => rfl
  | cons p m' =>
      obtain ⟨t, ht⟩ := intercalate_encodePair_head p m'
      rw [jsonEncode]
      simp only [jsonDecode]
      rw [if_pos trivial]
      have hne : List.intercalate [','] ((p :: m').map encodePair) ++ [rbraceChar]
          ≠ [rbraceChar] := by
        rw [ht]
        intro hcontra
        have h1 : ('"' : Char) = rbraceChar := by
          simpa using congrArg List.head? hcontra
        exact absurd h1 (by decide)
      rw [if_neg hne]
      have hfuel : (p :: m').length
          ≤ (List.intercalate [','] ((p :: m').map encodePair) ++ [rbraceChar]).length := by
        have h2 := length_le_intercalate_encodePair (p :: m')
        simp only [List.length_append, List.length_cons] at h2 ⊢
        omega
      rw [parsePairs_encode (p :: m') _ (by simp) hfuel]

/-- `SileroTtsService.list_languages`, with the filesystem cache made
explicit: `lang_file` is the content of `langs.json` when that file exists,
and `remote` stands for the mapping scraped from the remote model index (an
external data source per the spec). A cache hit loads the file and returns
the parsed mapping (failing with an `IOError`-class condition when the file
cannot be parsed); a cache miss returns the remote mapping after writing it
to the cache file with `json.dump`. -/
def list_languages (remote : List (List Char × List Char)) (lang_file : Option (List Char)) :
    Except String (List (List Char × List Char) × Option (List Char)) :=
  match lang_file with
  | some content =>
      match jsonDecode content with
      | some lang_urls => Except.ok (lang_urls, some content)
      | none => Except.error "IOError: langs.json is corrupt"
  | none => Except.ok (remote, some (jsonEncode remote))

/-- C9: cache-file round trip — for every registry mapping, the first run of
`list_languages` (no cache file) returns the mapping and writes it to the
cache file; a second call with that cache file present loads it and returns
a mapping identical to the one written, leaving the file unchanged. -/
theorem C9_list_languages_roundtrip (remote : List (List Char × List Char)) :
    list_languages remote none = Except.ok (remote, some (jsonEncode remote)) ∧
    list_languages remote (some (jsonEncode remote))
      = Except.ok (remote, some (jsonEncode remote)) := by
  refine ⟨rfl, ?_⟩
  simp [list_languages, jsonDecode_encode]
